import Mathlib

/-!
Verification of `src/github_services.py` of the pending-review-notifier
repository.

The embedding below is a shallow, value-level translation of the Python
module.  Network responses are passed in as explicit data (a list of pages
for paginated REST endpoints and response records for GraphQL posts), the
module-level token becomes an `Option String` parameter, in-place mutation
of dictionaries becomes functional update, and a raised Python exception
becomes an `Except.error` carrying the message.  Instants are modelled as
integer counts of seconds (`Int`); `datetime.timedelta(hours = h)` is the
integer `3600 * h` in the same unit.

The imported module `github_domain` is not part of the sources, so the two
members of it that `github_services` uses (`PullRequest.from_github_response`
and `is_reviewer_assigned`) are modelled from the specification and marked
as such in their doc comments.
-/

namespace PendingReviewNotifier

/-- One element of the `assignees` list of a raw pull-request dictionary as
returned by the REST endpoint: a login, plus the `created_at` key which is
absent until `get_pull_request_dict_with_timestamp` inserts it (hence
`Option`). -/
structure AssigneeDict where
  login : String
  created_at : Option Int
deriving Repr, DecidableEq

/-- The raw pull-request dictionary fields the module reads: `number`,
`user.login` (the author) and `assignees`. -/
structure PrDict where
  number : Nat
  user_login : String
  assignees : List AssigneeDict
deriving Repr, DecidableEq

/-- One timeline event as read by the module: its `event` kind and, for
`assigned` events, the target login `assignee.login` and the `created_at`
instant.  The module reads the last two fields only after checking that the
kind is `assigned`. -/
structure TimelineEvent where
  event : String
  assignee_login : String
  created_at : Int
deriving Repr, DecidableEq

/-- A reviewer record of the domain object: username and the reconciled
assignment instant. -/
structure Reviewer where
  username : String
  assigned_on_timestamp : Int
deriving Repr, DecidableEq

/-- The domain pull-request object consumed by the overdue evaluator. -/
structure PullRequest where
  number : Nat
  author_username : String
  assignees : List Reviewer
deriving Repr, DecidableEq

/-- Modelled from the spec: `github_domain.PullRequest.from_github_response`
is not under the sources.  Per the spec, the domain object carries the
number, the author identity and the reviewer assignments, and reviewers
with no resolvable assignment timestamp must be excluded from the overdue
computation (missing timestamp is not evaluable), so construction keeps
exactly the assignees that carry a reconciled `created_at` instant. -/
def PullRequest.from_github_response (d : PrDict) : PullRequest :=
  { number := d.number
    author_username := d.user_login
    assignees := d.assignees.filterMap fun a =>
      a.created_at.map fun t => { username := a.login, assigned_on_timestamp := t } }

/-- Modelled from the spec: `github_domain.PullRequest.is_reviewer_assigned`
is not under the sources.  Per the spec the evaluator proceeds for each pull
request with at least one assigned reviewer. -/
def PullRequest.is_reviewer_assigned (pr : PullRequest) : Bool :=
  !pr.assignees.isEmpty

/-- `init_service` (lines 40 to 54): rejects a missing or empty token,
otherwise stores it in the module-level state.  State passing replaces the
global `_TOKEN`; on rejection the state is returned unchanged. -/
def init_service (token : Option String) (state : Option String) :
    Option String × Except String Unit :=
  match token with
  | none => (state, Except.error "Must provide a valid GitHub Personal Access Token.")
  | some t =>
    if t = "" then
      (state, Except.error "Must provide a valid GitHub Personal Access Token.")
    else
      (some t, Except.ok ())

/-- The `check_token` decorator (lines 59 to 73): raises before the wrapped
function body runs when the service holds no token. -/
def check_token_guard (state : Option String) : Except String Unit :=
  match state with
  | none =>
    Except.error "Initialize the service with github_services.init_service(TOKEN)."
  | some _ => Except.ok ()

/-- `get_pull_request_dict_with_timestamp` (lines 193 to 204): for every
assignee of the dictionary whose login equals the event target login, set
the `created_at` key to the event instant. -/
def get_pull_request_dict_with_timestamp (pr_dict : PrDict) (event : TimelineEvent) :
    PrDict :=
  { pr_dict with
    assignees := pr_dict.assignees.map fun a =>
      if event.assignee_login = a.login then { a with created_at := some event.created_at }
      else a }

/-- One iteration of the inner event loop of
`get_pull_request_object_from_dict` (lines 180 to 183): non-`assigned`
events are skipped, `assigned` events rewrite the dictionary and bind
`updated_pr_dict` (the Bool records whether it has been bound). -/
def timelineEventStep (p : PrDict × Bool) (ev : TimelineEvent) : PrDict × Bool :=
  if ev.event = "assigned" then (get_pull_request_dict_with_timestamp p.1 ev, true)
  else p

/-- The pagination loop of `get_pull_request_object_from_dict` (lines 163
to 185).  The timeline endpoint is modelled by the list `pages`; a request
past the end of the list returns an empty page.  Returns the final
dictionary, whether `updated_pr_dict` was ever bound, and how many page
requests the loop issued. -/
def timelineLoop : List (List TimelineEvent) → PrDict → Bool → PrDict × Bool × Nat
  | [], d, b => (d, b, 1)
  | page :: rest, d, b =>
    if page.isEmpty then (d, b, 1)
    else
      let s := page.foldl timelineEventStep (d, b)
      let r := timelineLoop rest s.1 s.2
      (r.1, r.2.1, r.2.2 + 1)

/-- `get_pull_request_object_from_dict` (lines 151 to 188): guarded by
`check_token`, pages through the timeline folding `assigned` events into
the dictionary, then builds the domain object from `updated_pr_dict`.  When
no `assigned` event was ever seen that local variable was never bound and
line 187 raises `UnboundLocalError`.  The second component counts the page
requests issued (zero when the guard raises). -/
def get_pull_request_object_from_dict (tok : Option String)
    (pages : List (List TimelineEvent)) (pr_dict : PrDict) :
    Except String PullRequest × Nat :=
  match check_token_guard tok with
  | Except.error e => (Except.error e, 0)
  | Except.ok _ =>
    let r := timelineLoop pages pr_dict false
    if r.2.1 then (Except.ok (PullRequest.from_github_response r.1), r.2.2)
    else
      (Except.error "UnboundLocalError: local variable updated_pr_dict referenced before assignment",
        r.2.2)

/-- The `collections.defaultdict(list)` accumulator, as an association list
preserving key insertion order. -/
abbrev ReviewerDict := List (String × List PullRequest)

/-- `reviewer_to_assigned_prs[key].append(v)` on a `defaultdict(list)`:
append to the existing entry, or create the key with the one-element list. -/
def dictAppend (m : ReviewerDict) (k : String) (v : PullRequest) : ReviewerDict :=
  match m with
  | [] => [(k, [v])]
  | (k0, vs) :: rest =>
    if k0 = k then (k0, vs ++ [v]) :: rest else (k0, vs) :: dictAppend rest k v

/-- The per-pull-request body of the evaluator loop (lines 134 to 145): skip
pull requests with no assigned reviewer; for each reviewer, append the pull
request under the reviewer username exactly when the reviewer is not the
author and `now - assigned_on_timestamp >= timedelta(hours = hrs)`. -/
def processPullRequest (now : Int) (hrs : Int) (m : ReviewerDict) (pr : PullRequest) :
    ReviewerDict :=
  if pr.is_reviewer_assigned = false then m
  else
    pr.assignees.foldl
      (fun m0 rev =>
        if rev.username ≠ pr.author_username ∧
            now - rev.assigned_on_timestamp ≥ 3600 * hrs then
          dictAppend m0 rev.username pr
        else m0)
      m

/-- The list comprehension of lines 129 to 132: build the domain object of
every dictionary of the fetched page, in order; the first raised exception
aborts the comprehension.  `timelines` maps a pull-request number to its
timeline pages.  The second component counts timeline page requests issued
before returning or aborting. -/
def buildPullRequests (tok : Option String)
    (timelines : Nat → List (List TimelineEvent)) :
    List PrDict → Except String (List PullRequest) × Nat
  | [] => (Except.ok [], 0)
  | d :: rest =>
    let r := get_pull_request_object_from_dict tok (timelines d.number) d
    match r.1 with
    | Except.error e => (Except.error e, r.2)
    | Except.ok pr =>
      let rr := buildPullRequests tok timelines rest
      (rr.1.map (pr :: ·), r.2 + rr.2)

/-- The pagination loop of `get_prs_assigned_to_reviewers` (lines 110 to
146).  The pull-request listing endpoint is modelled by `prPages`; a
request past the end of the list returns an empty page, which breaks the
loop.  Returns the accumulated reviewer dictionary (or the first raised
exception), the number of pull-request page requests issued, and the number
of timeline page requests issued. -/
def prLoop (tok : Option String) (timelines : Nat → List (List TimelineEvent))
    (now : Int) (hrs : Int) :
    List (List PrDict) → ReviewerDict → Except String ReviewerDict × Nat × Nat
  | [], m => (Except.ok m, 1, 0)
  | page :: rest, m =>
    if page.isEmpty then (Except.ok m, 1, 0)
    else
      let b := buildPullRequests tok timelines page
      match b.1 with
      | Except.error e => (Except.error e, 1, b.2)
      | Except.ok prs =>
        let r := prLoop tok timelines now hrs rest (prs.foldl (processPullRequest now hrs) m)
        (r.1, r.2.1 + 1, b.2 + r.2.2)

/-- `get_prs_assigned_to_reviewers` (lines 85 to 146): guarded by
`check_token`, pages through the open pull requests, reconciles each one
against its timeline and accumulates overdue reviewer/pull-request pairs in
a `defaultdict(list)`.  Returns the result together with the number of
pull-request page requests and of timeline page requests issued (both zero
when the guard raises). -/
def get_prs_assigned_to_reviewers (tok : Option String)
    (timelines : Nat → List (List TimelineEvent)) (now : Int) (hrs : Int)
    (prPages : List (List PrDict)) : Except String ReviewerDict × Nat × Nat :=
  match check_token_guard tok with
  | Except.error e => (Except.error e, 0, 0)
  | Except.ok _ => prLoop tok timelines now hrs prPages []

/-- One node of the first GraphQL lookup of `_get_discussion_data`:
a discussion category id and name. -/
structure CategoryNode where
  id : String
  name : String
deriving Repr, DecidableEq

/-- One node of the second GraphQL lookup of `_get_discussion_data`:
a discussion id, title and number. -/
structure DiscussionNode where
  id : String
  title : String
  number : Nat
deriving Repr, DecidableEq

/-- A GraphQL HTTP response: the status code and the parsed payload of
`response.json()` projected to the nodes the caller reads; `none` models a
body in which the expected `data` path is absent, so that projecting it
raises. -/
structure GqlResponse (α : Type) where
  status : Nat
  body : Option α
deriving Repr, DecidableEq

/-- `response.raise_for_status()` of the `requests` library: raises
`HTTPError` exactly for status codes 400 to 599. -/
def raise_for_status (status : Nat) : Except String Unit :=
  if 400 ≤ status ∧ status < 600 then Except.error "HTTPError" else Except.ok ()

/-- Projecting `response.json()` to the nodes under its `data` path: a body
without that shape raises a lookup error. -/
def jsonNodes {α : Type} (r : GqlResponse α) : Except String α :=
  match r.body with
  | none => Except.error "KeyError: data"
  | some nodes => Except.ok nodes

/-- The category search of lines 251 to 254: first node whose `name` equals
the requested category, if any. -/
def findCategory (nodes : List CategoryNode) (discussion_category : String) :
    Option String :=
  (nodes.find? fun c => c.name == discussion_category).map CategoryNode.id

/-- The discussion search of lines 296 to 300: first node whose `title`
equals the requested title, if any. -/
def findDiscussion (nodes : List DiscussionNode) (discussion_title : String) :
    Option (String × Nat) :=
  (nodes.find? fun d => d.title == discussion_title).map fun d => (d.id, d.number)

/-- `_get_discussion_data` (lines 207 to 307): guarded by `check_token`,
posts the category query, reads the nodes straight from `response.json()`
(the source never calls `raise_for_status` on either response of this
function, so the status fields of `r1` and `r2` are never consulted), finds
the category, posts the discussion query, and finds the discussion.
Returns the (discussion id, discussion number) pair or the raised
exception, plus the number of network posts issued. -/
def _get_discussion_data (tok : Option String)
    (r1 : GqlResponse (List CategoryNode)) (r2 : GqlResponse (List DiscussionNode))
    (discussion_category : String) (discussion_title : String) :
    Except String (String × Nat) × Nat :=
  match check_token_guard tok with
  | Except.error e => (Except.error e, 0)
  | Except.ok _ =>
    match jsonNodes r1 with
    | Except.error e => (Except.error e, 1)
    | Except.ok cats =>
      match findCategory cats discussion_category with
      | none =>
        (Except.error (discussion_category ++ " category is missing in GitHub Discussion."), 1)
      | some _ =>
        match jsonNodes r2 with
        | Except.error e => (Except.error e, 2)
        | Except.ok discs =>
          match findDiscussion discs discussion_title with
          | none =>
            (Except.error ("Discussion with title " ++ discussion_title ++
              " not found, please create a discussion with that title."), 2)
          | some res => (Except.ok res, 2)

/-- Module-level constant (line 37). -/
def DELETE_COMMENTS_BEFORE_IN_DAYS : Nat := 60

/-- A naive UTC instant with the six fields that the strftime format
string of `_get_past_time` renders. -/
structure Datetime where
  year : Nat
  month : Nat
  day : Nat
  hour : Nat
  minute : Nat
  second : Nat
deriving Repr, DecidableEq

/-- The ASCII digit character of a value below ten, as produced by
strftime zero padding. -/
def digitChar (n : Nat) : Char :=
  if n = 0 then '0' else if n = 1 then '1' else if n = 2 then '2'
  else if n = 3 then '3' else if n = 4 then '4' else if n = 5 then '5'
  else if n = 6 then '6' else if n = 7 then '7' else if n = 8 then '8' else '9'

/-- Zero-padded fixed-width decimal rendering, most significant digit
first: the `w` characters of `n` written in width `w` (faithful to
strftime `%Y` with `w = 4` and `%m`, `%d`, `%H`, `%M`, `%S` with `w = 2`,
for `n` below `10 ^ w`). -/
def padDigits : Nat → Nat → List Char
  | 0, _ => []
  | w + 1, n => digitChar (n / 10 ^ w) :: padDigits w (n % 10 ^ w)

/-- Python string comparison `s < t`: lexicographic on code points, a
strict prefix being smaller. -/
def strLt : List Char → List Char → Bool
  | _, [] => false
  | [], _ :: _ => true
  | a :: as, b :: bs => if a < b then true else if b < a then false else strLt as bs

/-- The strftime format string of `_get_past_time` (line 315),
`%Y-%m-%dT%H:%M:%SZ`, rendered over a `Datetime`. -/
def formatDatetime (t : Datetime) : List Char :=
  padDigits 4 t.year ++ '-' ::
    (padDigits 2 t.month ++ '-' ::
      (padDigits 2 t.day ++ 'T' ::
        (padDigits 2 t.hour ++ ':' ::
          (padDigits 2 t.minute ++ ':' ::
            (padDigits 2 t.second ++ ['Z'])))))

/-- `_get_past_time` (lines 310 to 315) formats the instant
`now - timedelta(days = days)` with `%Y-%m-%dT%H:%M:%SZ`.  The calendar
subtraction happens inside the `datetime` library; the embedding receives
that already shifted instant as `past` and performs the formatting step the
source contributes. -/
def _get_past_time (past : Datetime) : List Char :=
  formatDatetime past

/-- One node of the comment query of `_get_old_comment_ids`: a comment id
and its `createdAt` string exactly as the API returns it. -/
structure CommentNode where
  id : String
  createdAt : List Char
deriving Repr, DecidableEq

/-- The selection loop of `_get_old_comment_ids` (lines 360 to 375): walk
the fetched comments in order, append the id of every comment whose
`createdAt` string compares below the cutoff string, and `break` at the
first comment that does not. -/
def _get_old_comment_ids (discussion_comments : List CommentNode)
    (delete_comments_before : List Char) : List String :=
  match discussion_comments with
  | [] => []
  | c :: rest =>
    if strLt c.createdAt delete_comments_before then
      c.id :: _get_old_comment_ids rest delete_comments_before
    else []

/-- Reference comparison for the refinement claim, following the spec side:
the stale filter is meant to compare the parsed `datetime` values, and
Python compares `datetime` instances by their field tuples
lexicographically, which on UTC instants is chronological order. -/
def dtLt (a b : Datetime) : Bool :=
  if a.year < b.year then true else if b.year < a.year then false
  else if a.month < b.month then true else if b.month < a.month then false
  else if a.day < b.day then true else if b.day < a.day then false
  else if a.hour < b.hour then true else if b.hour < a.hour then false
  else if a.minute < b.minute then true else if b.minute < a.minute then false
  else if a.second < b.second then true else if b.second < a.second then false
  else false

/-- The field bounds under which the fixed-width rendering of
`formatDatetime` is faithful: each field fits its padded width (every
instant `datetime` can hold satisfies these). -/
def Datetime.inFormatRange (t : Datetime) : Prop :=
  t.year < 10000 ∧ t.month < 100 ∧ t.day < 100 ∧
    t.hour < 100 ∧ t.minute < 100 ∧ t.second < 100

/-! ### Helper notions for the timeline reconciliation -/

/-- One event of the inner loop applied to the dictionary alone. -/
def applyEvent (d : PrDict) (ev : TimelineEvent) : PrDict :=
  if ev.event = "assigned" then get_pull_request_dict_with_timestamp d ev else d

/-- Folding a whole event list over the dictionary, in arrival order. -/
def applyEvents (d : PrDict) (evs : List TimelineEvent) : PrDict :=
  evs.foldl applyEvent d

/-- Whether some event of the list has kind `assigned`. -/
def anyAssigned (evs : List TimelineEvent) : Bool :=
  evs.any fun e => decide (e.event = "assigned")

/-- The events the pagination loop actually folds: the pages before the
first empty page, concatenated in page order. -/
def processedTimeline (pages : List (List TimelineEvent)) : List TimelineEvent :=
  (pages.takeWhile fun p => !p.isEmpty).flatten

/-- The `assigned` events of the list targeting reviewer `r`, in order. -/
def assignedEventsFor (evs : List TimelineEvent) (r : String) : List TimelineEvent :=
  evs.filter fun ev => decide (ev.event = "assigned" ∧ ev.assignee_login = r)

/-- Every assignee record of login `r` carries the stamp `c`. -/
def AssigneeStamp (d : PrDict) (r : String) (c : Option Int) : Prop :=
  ∀ a ∈ d.assignees, a.login = r → a.created_at = c

lemma foldl_timelineEventStep (page : List TimelineEvent) :
    ∀ (d : PrDict) (b : Bool),
      page.foldl timelineEventStep (d, b) = (applyEvents d page, b || anyAssigned page) := by
  induction page with
  | nil => intro d b; simp [applyEvents, anyAssigned]
  | cons e page ih =>
    intro d b
    by_cases he : e.event = "assigned" <;>
      simp [timelineEventStep, he, ih, applyEvents, applyEvent, anyAssigned, List.foldl_cons]

lemma timelineLoop_eq (pages : List (List TimelineEvent)) :
    ∀ (d : PrDict) (b : Bool),
      timelineLoop pages d b =
        (applyEvents d (processedTimeline pages),
          b || anyAssigned (processedTimeline pages),
          (pages.takeWhile fun p => !p.isEmpty).length + 1) := by
  induction pages with
  | nil => intro d b; simp [timelineLoop, processedTimeline, applyEvents, anyAssigned]
  | cons page rest ih =>
    intro d b
    by_cases hp : page.isEmpty
    · have hnil : page = [] := by simpa [List.isEmpty_iff] using hp
      simp [timelineLoop, hp, hnil, processedTimeline, applyEvents, anyAssigned]
    · rw [timelineLoop]
      simp only [hp, if_false, foldl_timelineEventStep, ih]
      have htw : (page :: rest).takeWhile (fun p => !p.isEmpty) =
          page :: rest.takeWhile (fun p => !p.isEmpty) := by
        simp [List.takeWhile_cons, hp]
      simp [processedTimeline, htw, applyEvents, anyAssigned, List.foldl_append,
        Bool.or_assoc]

lemma assigneeStamp_set (d : PrDict) (e : TimelineEvent) (r : String)
    (hr : e.assignee_login = r) :
    AssigneeStamp (get_pull_request_dict_with_timestamp d e) r (some e.created_at) := by
  intro a ha hlogin
  simp only [get_pull_request_dict_with_timestamp, List.mem_map] at ha
  obtain ⟨a0, _, rfl⟩ := ha
  by_cases hc : e.assignee_login = a0.login
  · simp [hc]
  · exfalso
    rw [if_neg hc] at hlogin
    exact hc (hr.trans hlogin.symm)

lemma assigneeStamp_preserve_step (d : PrDict) (ev : TimelineEvent) (r : String)
    (c : Option Int) (hev : ¬(ev.event = "assigned" ∧ ev.assignee_login = r))
    (h : AssigneeStamp d r c) : AssigneeStamp (applyEvent d ev) r c := by
  unfold applyEvent
  by_cases hk : ev.event = "assigned"
  · have hlog : ev.assignee_login ≠ r := fun hr => hev ⟨hk, hr⟩
    simp only [hk, if_true]
    intro a ha hlogin
    simp only [get_pull_request_dict_with_timestamp, List.mem_map] at ha
    obtain ⟨a0, ha0, rfl⟩ := ha
    by_cases hc : ev.assignee_login = a0.login
    · exfalso
      apply hlog
      simpa [hc] using hlogin
    · rw [if_neg hc] at hlogin ⊢
      exact h a0 ha0 hlogin
  · rw [if_neg hk]
    exact h

lemma assigneeStamp_preserve (r : String) (c : Option Int) :
    ∀ (evs : List TimelineEvent) (d : PrDict),
      assignedEventsFor evs r = [] → AssigneeStamp d r c →
      AssigneeStamp (applyEvents d evs) r c := by
  intro evs
  induction evs with
  | nil => intro d _ h; simpa [applyEvents] using h
  | cons ev rest ih =>
    intro d hnil h
    by_cases hev : ev.event = "assigned" ∧ ev.assignee_login = r
    · have hfe : assignedEventsFor (ev :: rest) r = ev :: assignedEventsFor rest r := by
        simp [assignedEventsFor, List.filter_cons, hev]
      rw [hfe] at hnil
      exact absurd hnil (List.cons_ne_nil _ _)
    · have hfe : assignedEventsFor (ev :: rest) r = assignedEventsFor rest r := by
        simp [assignedEventsFor, List.filter_cons, hev]
      rw [hfe] at hnil
      have hstep : AssigneeStamp (applyEvent d ev) r c :=
        assigneeStamp_preserve_step d ev r c hev h
      simpa [applyEvents, List.foldl_cons] using ih (applyEvent d ev) hnil hstep

lemma assigneeStamp_last (r : String) :
    ∀ (evs : List TimelineEvent) (e : TimelineEvent),
      (assignedEventsFor evs r).getLast? = some e →
      ∀ d : PrDict, AssigneeStamp (applyEvents d evs) r (some e.created_at) := by
  intro evs
  induction evs with
  | nil => intro e he d; simp [assignedEventsFor] at he
  | cons ev rest ih =>
    intro e he d
    by_cases hev : ev.event = "assigned" ∧ ev.assignee_login = r
    · have hfe : assignedEventsFor (ev :: rest) r = ev :: assignedEventsFor rest r := by
        simp [assignedEventsFor, List.filter_cons, hev]
      rw [hfe] at he
      rcases hrest : assignedEventsFor rest r with _ | ⟨x, xs⟩
      · rw [hrest] at he
        simp only [List.getLast?_singleton, Option.some_inj] at he
        subst he
        have hset : AssigneeStamp (applyEvent d ev) r (some ev.created_at) := by
          unfold applyEvent
          rw [if_pos hev.1]
          exact assigneeStamp_set d ev r hev.2
        have hres :=
          assigneeStamp_preserve r (some ev.created_at) rest (applyEvent d ev) hrest hset
        simpa [applyEvents, List.foldl_cons] using hres
      · rw [hrest, List.getLast?_cons_cons, ← hrest] at he
        have hres := ih e he (applyEvent d ev)
        simpa [applyEvents, List.foldl_cons] using hres
    · have hfe : assignedEventsFor (ev :: rest) r = assignedEventsFor rest r := by
        simp [assignedEventsFor, List.filter_cons, hev]
      rw [hfe] at he
      have hres := ih e he (applyEvent d ev)
      simpa [applyEvents, List.foldl_cons] using hres

lemma mem_from_github_response (d : PrDict) (rev : Reviewer)
    (h : rev ∈ (PullRequest.from_github_response d).assignees) :
    ∃ a ∈ d.assignees, a.login = rev.username ∧
      a.created_at = some rev.assigned_on_timestamp := by
  simp only [PullRequest.from_github_response, List.mem_filterMap] at h
  obtain ⟨a, ha, hfa⟩ := h
  rcases hc : a.created_at with _ | t
  · rw [hc] at hfa; simp at hfa
  · rw [hc] at hfa
    simp only [Option.map_some', Option.some_inj] at hfa
    refine ⟨a, ha, ?_, ?_⟩
    · rw [← hfa]
    · rw [hc, ← hfa]

/-! ### Helper notions for the overdue evaluator -/

/-- Every entry of the accumulator dictionary satisfies `P`. -/
def EntryInv (P : String → List PullRequest → Prop) (m : ReviewerDict) : Prop :=
  ∀ p ∈ m, P p.1 p.2

lemma entryInv_dictAppend (P : String → List PullRequest → Prop)
    (k : String) (v : PullRequest) (hnew : P k [v])
    (happ : ∀ vs, P k vs → P k (vs ++ [v])) :
    ∀ m : ReviewerDict, EntryInv P m → EntryInv P (dictAppend m k v) := by
  intro m
  induction m with
  | nil =>
    intro _ p hp
    simp only [dictAppend, List.mem_singleton] at hp
    subst hp
    exact hnew
  | cons q rest ih =>
    intro hm p hp
    obtain ⟨k0, vs⟩ := q
    rw [dictAppend] at hp
    by_cases hk : k0 = k
    · rw [if_pos hk] at hp
      rw [List.mem_cons] at hp
      rcases hp with hp | hp
      · subst hp
        subst hk
        exact happ vs (hm (k0, vs) (List.mem_cons_self _ _))
      · exact hm p (List.mem_cons_of_mem _ hp)
    · rw [if_neg hk] at hp
      rw [List.mem_cons] at hp
      rcases hp with hp | hp
      · subst hp
        exact hm (k0, vs) (List.mem_cons_self _ _)
      · exact ih (fun q hq => hm q (List.mem_cons_of_mem _ hq)) p hp

lemma entryInv_revFold (P : String → List PullRequest → Prop)
    (now hrs : Int) (pr : PullRequest)
    (hnew : ∀ r : String, r ≠ pr.author_username → P r [pr])
    (happ : ∀ (r : String) vs, r ≠ pr.author_username → P r vs → P r (vs ++ [pr])) :
    ∀ (revs : List Reviewer) (m : ReviewerDict), EntryInv P m →
      EntryInv P (revs.foldl
        (fun m0 rev =>
          if rev.username ≠ pr.author_username ∧
              now - rev.assigned_on_timestamp ≥ 3600 * hrs then
            dictAppend m0 rev.username pr
          else m0)
        m) := by
  intro revs
  induction revs with
  | nil => intro m hm; simpa using hm
  | cons rev rest ih =>
    intro m hm
    rw [List.foldl_cons]
    by_cases hc : rev.username ≠ pr.author_username ∧
        now - rev.assigned_on_timestamp ≥ 3600 * hrs
    · rw [if_pos hc]
      exact ih _ (entryInv_dictAppend P rev.username pr (hnew _ hc.1)
        (fun vs => happ _ vs hc.1) m hm)
    · rw [if_neg hc]
      exact ih m hm

lemma entryInv_processPullRequest (P : String → List PullRequest → Prop)
    (now hrs : Int)
    (hnew : ∀ (pr : PullRequest) (r : String), r ≠ pr.author_username → P r [pr])
    (happ : ∀ (pr : PullRequest) (r : String) vs, r ≠ pr.author_username →
      P r vs → P r (vs ++ [pr])) :
    ∀ (pr : PullRequest) (m : ReviewerDict), EntryInv P m →
      EntryInv P (processPullRequest now hrs m pr) := by
  intro pr m hm
  rw [processPullRequest]
  by_cases ha : pr.is_reviewer_assigned = false
  · rw [if_pos ha]; exact hm
  · rw [if_neg ha]
    exact entryInv_revFold P now hrs pr (hnew pr) (happ pr) pr.assignees m hm

lemma entryInv_prsFold (P : String → List PullRequest → Prop)
    (now hrs : Int)
    (hnew : ∀ (pr : PullRequest) (r : String), r ≠ pr.author_username → P r [pr])
    (happ : ∀ (pr : PullRequest) (r : String) vs, r ≠ pr.author_username →
      P r vs → P r (vs ++ [pr])) :
    ∀ (prs : List PullRequest) (m : ReviewerDict), EntryInv P m →
      EntryInv P (prs.foldl (processPullRequest now hrs) m) := by
  intro prs
  induction prs with
  | nil => intro m hm; simpa using hm
  | cons pr rest ih =>
    intro m hm
    rw [List.foldl_cons]
    exact ih _ (entryInv_processPullRequest P now hrs hnew happ pr m hm)

lemma entryInv_prLoop (P : String → List PullRequest → Prop)
    (tok : Option String) (timelines : Nat → List (List TimelineEvent))
    (now hrs : Int)
    (hnew : ∀ (pr : PullRequest) (r : String), r ≠ pr.author_username → P r [pr])
    (happ : ∀ (pr : PullRequest) (r : String) vs, r ≠ pr.author_username →
      P r vs → P r (vs ++ [pr])) :
    ∀ (pages : List (List PrDict)) (m m' : ReviewerDict),
      (prLoop tok timelines now hrs pages m).1 = Except.ok m' →
      EntryInv P m → EntryInv P m' := by
  intro pages
  induction pages with
  | nil =>
    intro m m' hok hm
    simp only [prLoop, Except.ok.injEq] at hok
    subst hok
    exact hm
  | cons page rest ih =>
    intro m m' hok hm
    rw [prLoop] at hok
    by_cases hp : page.isEmpty
    · rw [if_pos hp] at hok
      simp only [Except.ok.injEq] at hok
      subst hok
      exact hm
    · rw [if_neg hp] at hok
      simp only at hok
      rcases hb : (buildPullRequests tok timelines page).1 with msg | prs
      · rw [hb] at hok
        simp at hok
      · rw [hb] at hok
        simp only at hok
        exact ih _ m' hok (entryInv_prsFold P now hrs hnew happ prs m hm)

/-! ### Claim theorems -/

/-- C1: for every pull request whose timeline contains `assigned` events for
a reviewer, the assignment timestamp stored on that reviewer record after
reconciliation equals the creation time of the last `assigned` event for
that reviewer in page order (events are folded in arrival order, each
matching event overwriting the previous timestamp), never the first
event's time. -/
theorem c1_last_assigned_event_wins (tok : Option String)
    (pages : List (List TimelineEvent)) (d : PrDict) (r : String)
    (e : TimelineEvent) (pr : PullRequest)
    (hlast : (assignedEventsFor (processedTimeline pages) r).getLast? = some e)
    (hok : (get_pull_request_object_from_dict tok pages d).1 = Except.ok pr) :
    ∀ rev ∈ pr.assignees, rev.username = r →
      rev.assigned_on_timestamp = e.created_at := by
  intro rev hrev hname
  rcases tok with _ | t
  · simp [get_pull_request_object_from_dict, check_token_guard] at hok
  · simp only [get_pull_request_object_from_dict, check_token_guard] at hok
    rw [timelineLoop_eq] at hok
    simp only [Bool.false_or] at hok
    by_cases hb : anyAssigned (processedTimeline pages) = true
    · rw [if_pos hb] at hok
      simp only [Except.ok.injEq] at hok
      subst hok
      obtain ⟨a, ha, hlogin, hcreated⟩ := mem_from_github_response _ rev hrev
      have hstamp := assigneeStamp_last r (processedTimeline pages) e hlast d
      have := hstamp a ha (hlogin.trans hname)
      rw [hcreated] at this
      exact Option.some_inj.mp this
    · rw [if_neg hb] at hok
      simp at hok

def c1Dict : PrDict :=
  { number := 42, user_login := "alice",
    assignees := [{ login := "bob", created_at := none }] }

def c1Pages : List (List TimelineEvent) :=
  [[{ event := "assigned", assignee_login := "bob", created_at := 5 }],
   [{ event := "assigned", assignee_login := "bob", created_at := 10 }]]

def c1Ev : TimelineEvent :=
  { event := "assigned", assignee_login := "bob", created_at := 10 }

def c1Pr : PullRequest :=
  { number := 42, author_username := "alice",
    assignees := [{ username := "bob", assigned_on_timestamp := 10 }] }

/-- Witness for C1: a reviewer assigned twice (instants 5 then 10) ends up
with the stored timestamp 10, the last event's time. -/
theorem c1_last_assigned_event_wins_witness :
    (Reviewer.mk "bob" 10).assigned_on_timestamp = c1Ev.created_at :=
  c1_last_assigned_event_wins (some "t") c1Pages c1Dict "bob" c1Ev c1Pr
    (by decide) rfl (Reviewer.mk "bob" 10) (by simp [c1Pr]) rfl

def c2Dict : PrDict :=
  { number := 42, user_login := "alice",
    assignees := [{ login := "bob", created_at := none }] }

/-- C2 (failing input): a pull request with an assigned reviewer whose
timeline is entirely empty makes `get_pull_request_object_from_dict` raise
(the local variable `updated_pr_dict` of line 183 is never bound when no
`assigned` event is seen, so line 187 raises `UnboundLocalError`), instead
of completing and excluding the reviewer as the claim states. -/
theorem c2_empty_timeline_raises :
    c2Dict.assignees ≠ [] ∧
      (get_pull_request_object_from_dict (some "t") [] c2Dict).1 =
        Except.error
          "UnboundLocalError: local variable updated_pr_dict referenced before assignment" :=
  ⟨by simp [c2Dict], rfl⟩

/-- C3: for every reviewer/pull-request pair in which the reviewer username
equals the pull-request author username, the pair is never added to the
overdue mapping returned by `get_prs_assigned_to_reviewers`, regardless of
the elapsed time: every pull request stored under a reviewer key has an
author different from that key. -/
theorem c3_self_review_never_marked_overdue (tok : Option String)
    (timelines : Nat → List (List TimelineEvent)) (now hrs : Int)
    (prPages : List (List PrDict)) (m : ReviewerDict)
    (hok : (get_prs_assigned_to_reviewers tok timelines now hrs prPages).1 =
      Except.ok m) :
    ∀ p ∈ m, ∀ pr ∈ p.2, pr.author_username ≠ p.1 := by
  rcases tok with _ | t
  · simp [get_prs_assigned_to_reviewers, check_token_guard] at hok
  · simp only [get_prs_assigned_to_reviewers, check_token_guard] at hok
    refine entryInv_prLoop (fun r l => ∀ pr ∈ l, pr.author_username ≠ r)
      (some t) timelines now hrs ?_ ?_ prPages [] m hok ?_
    · intro pr r hne pr' hpr'
      rw [List.mem_singleton] at hpr'
      subst hpr'
      exact fun h => hne h.symm
    · intro pr r vs hne hvs pr' hpr'
      rw [List.mem_append] at hpr'
      rcases hpr' with hpr' | hpr'
      · exact hvs pr' hpr'
      · rw [List.mem_singleton] at hpr'
        subst hpr'
        exact fun h => hne h.symm
    · intro p hp
      simp at hp

def c3Dict : PrDict :=
  { number := 7, user_login := "alice",
    assignees := [{ login := "alice", created_at := none },
      { login := "bob", created_at := none }] }

def c3Tl : Nat → List (List TimelineEvent) := fun _ =>
  [[{ event := "assigned", assignee_login := "alice", created_at := 0 },
    { event := "assigned", assignee_login := "bob", created_at := 0 }]]

def c3Pr : PullRequest :=
  { number := 7, author_username := "alice",
    assignees := [{ username := "alice", assigned_on_timestamp := 0 },
      { username := "bob", assigned_on_timestamp := 0 }] }

/-- Witness for C3: a run in which author alice is also an assignee far past
the threshold still stores only bob, and the entry under bob has an author
different from bob. -/
theorem c3_self_review_never_marked_overdue_witness :
    c3Pr.author_username ≠ "bob" :=
  c3_self_review_never_marked_overdue (some "t") c3Tl 7200 1 [[c3Dict]]
    [("bob", [c3Pr])] rfl ("bob", [c3Pr]) (List.mem_singleton.mpr rfl)
    c3Pr (List.mem_singleton.mpr rfl)

/-- C4: for a pull request with one non-author reviewer carrying a valid
assignment timestamp, the evaluator adds the overdue pair exactly when the
elapsed time `now - t` is at least `3600 * hrs` seconds (the
`timedelta(hours = hrs)` threshold); the boundary case of equality is
included. -/
theorem c4_threshold_boundary_inclusive (now t hrs : Int)
    (pr : PullRequest) (rev : Reviewer)
    (hassign : pr.assignees = [rev])
    (hne : rev.username ≠ pr.author_username)
    (ht : rev.assigned_on_timestamp = t) :
    processPullRequest now hrs [] pr =
      if now - t ≥ 3600 * hrs then [(rev.username, [pr])] else [] := by
  subst ht
  rw [processPullRequest,
    if_neg (by simp [PullRequest.is_reviewer_assigned, hassign])]
  rw [hassign]
  simp only [List.foldl_cons, List.foldl_nil]
  by_cases hcmp : now - rev.assigned_on_timestamp ≥ 3600 * hrs
  · rw [if_pos ⟨hne, hcmp⟩, if_pos hcmp]
    rfl
  · rw [if_neg (fun hc => hcmp hc.2), if_neg hcmp]

def c4Rev : Reviewer := { username := "bob", assigned_on_timestamp := 0 }

def c4Pr : PullRequest :=
  { number := 1, author_username := "alice", assignees := [c4Rev] }

/-- Witness for C4: elapsed time exactly equal to the one-hour threshold
(assigned at 0, evaluated at 3600) is classified overdue. -/
theorem c4_threshold_boundary_inclusive_witness :
    processPullRequest 3600 1 [] c4Pr = [("bob", [c4Pr])] :=
  (c4_threshold_boundary_inclusive 3600 0 1 c4Pr c4Rev rfl (by decide) rfl).trans
    (by decide)

/-- C10: in the mapping returned by `get_prs_assigned_to_reviewers`, every
reviewer key present maps to a non-empty list of pull requests: a key is
created only at an append. -/
theorem c10_result_entries_nonempty (tok : Option String)
    (timelines : Nat → List (List TimelineEvent)) (now hrs : Int)
    (prPages : List (List PrDict)) (m : ReviewerDict)
    (hok : (get_prs_assigned_to_reviewers tok timelines now hrs prPages).1 =
      Except.ok m) :
    ∀ p ∈ m, p.2 ≠ [] := by
  rcases tok with _ | t
  · simp [get_prs_assigned_to_reviewers, check_token_guard] at hok
  · simp only [get_prs_assigned_to_reviewers, check_token_guard] at hok
    refine entryInv_prLoop (fun _ l => l ≠ [])
      (some t) timelines now hrs ?_ ?_ prPages [] m hok ?_
    · intro pr r _
      exact List.cons_ne_nil _ _
    · intro pr r vs _ _
      simp
    · intro p hp
      simp at hp

def c10Dict : PrDict :=
  { number := 9, user_login := "alice",
    assignees := [{ login := "bob", created_at := none }] }

def c10Tl : Nat → List (List TimelineEvent) := fun _ =>
  [[{ event := "assigned", assignee_login := "bob", created_at := 0 }]]

def c10Pr : PullRequest :=
  { number := 9, author_username := "alice",
    assignees := [{ username := "bob", assigned_on_timestamp := 0 }] }

/-- Witness for C10: a run producing one entry, whose list is non-empty. -/
theorem c10_result_entries_nonempty_witness :
    (("bob", [c10Pr]) : String × List PullRequest).2 ≠ [] :=
  c10_result_entries_nonempty (some "t") c10Tl 7200 1 [[c10Dict]]
    [("bob", [c10Pr])] rfl ("bob", [c10Pr]) (List.mem_singleton.mpr rfl)

/-- C5: the stale-comment selection returns exactly the longest prefix of
the fetched comments whose `createdAt` compares strictly below the cutoff
string: it is the image under `id` of `takeWhile`, so every comment of that
prefix is included and scanning halts at the first comment at or after the
boundary, excluding later comments even when their timestamps would
qualify. -/
theorem c5_stale_selection_is_boundary_prefix
    (comments : List CommentNode) (past : Datetime) :
    _get_old_comment_ids comments (_get_past_time past) =
      (comments.takeWhile fun c => strLt c.createdAt (_get_past_time past)).map
        CommentNode.id := by
  generalize _get_past_time past = cutoff
  induction comments with
  | nil => rfl
  | cons c rest ih =>
    by_cases hc : strLt c.createdAt cutoff = true
    · simp [_get_old_comment_ids, List.takeWhile_cons, hc, ih]
    · simp [_get_old_comment_ids, List.takeWhile_cons, hc]

def c6CatResponse : GqlResponse (List CategoryNode) :=
  { status := 500, body := some [{ id := "cat1", name := "General" }] }

def c6DiscResponse : GqlResponse (List DiscussionNode) :=
  { status := 500, body := some [{ id := "disc1", title := "Updates", number := 7 }] }

/-- C6 (failing input): both GraphQL lookups of `_get_discussion_data`
answer with HTTP status 500 (a non-success status on which
`raise_for_status` would raise) while carrying well-formed bodies; the
locator never consults the status, completes successfully and still issues
the second network call, instead of aborting with a propagated transport
error as the claim states. -/
theorem c6_locator_ignores_transport_failure :
    raise_for_status c6CatResponse.status = Except.error "HTTPError" ∧
      raise_for_status c6DiscResponse.status = Except.error "HTTPError" ∧
      _get_discussion_data (some "t") c6CatResponse c6DiscResponse
          "General" "Updates" =
        (Except.ok ("disc1", 7), 2) :=
  ⟨rfl, rfl, rfl⟩

/-- C7: a public operation invoked while the service holds no token fails
immediately with the explicit initialization error and issues zero network
requests, and `init_service` rejects an absent or empty token immediately,
leaving the service uninitialized. -/
theorem c7_uninitialized_fails_without_requests
    (timelines : Nat → List (List TimelineEvent)) (now hrs : Int)
    (prPages : List (List PrDict))
    (r1 : GqlResponse (List CategoryNode)) (r2 : GqlResponse (List DiscussionNode))
    (cat title : String) :
    get_prs_assigned_to_reviewers none timelines now hrs prPages =
        (Except.error "Initialize the service with github_services.init_service(TOKEN).",
          0, 0) ∧
      _get_discussion_data none r1 r2 cat title =
        (Except.error "Initialize the service with github_services.init_service(TOKEN).",
          0) ∧
      init_service none none =
        (none, Except.error "Must provide a valid GitHub Personal Access Token.") ∧
      init_service (some "") none =
        (none, Except.error "Must provide a valid GitHub Personal Access Token.") :=
  ⟨rfl, rfl, rfl, rfl⟩

lemma timelineLoop_requests (pages : List (List TimelineEvent)) (d : PrDict)
    (b : Bool) :
    (timelineLoop pages d b).2.2 = (pages.takeWhile fun p => !p.isEmpty).length + 1 := by
  rw [timelineLoop_eq]

lemma timelineLoop_stops_at_empty (qs qs' : List (List TimelineEvent)) :
    ∀ (ps : List (List TimelineEvent)) (d : PrDict) (b : Bool),
      timelineLoop (ps ++ [] :: qs) d b = timelineLoop (ps ++ [] :: qs') d b := by
  intro ps
  induction ps with
  | nil => intro d b; simp [timelineLoop]
  | cons p ps ih =>
    intro d b
    rw [List.cons_append, List.cons_append, timelineLoop, timelineLoop]
    by_cases hp : p.isEmpty
    · rw [if_pos hp, if_pos hp]
    · rw [if_neg hp, if_neg hp]
      simp only
      rw [ih]

lemma prLoop_stops_at_empty (tok : Option String)
    (timelines : Nat → List (List TimelineEvent)) (now hrs : Int)
    (ts ts' : List (List PrDict)) :
    ∀ (rs : List (List PrDict)) (m : ReviewerDict),
      prLoop tok timelines now hrs (rs ++ [] :: ts) m =
        prLoop tok timelines now hrs (rs ++ [] :: ts') m := by
  intro rs
  induction rs with
  | nil => intro m; simp [prLoop]
  | cons page rs ih =>
    intro m
    rw [List.cons_append, List.cons_append, prLoop, prLoop]
    by_cases hp : page.isEmpty
    · rw [if_pos hp, if_pos hp]
    · rw [if_neg hp, if_neg hp]
      simp only
      rcases hb : (buildPullRequests tok timelines page).1 with msg | prs
      · rfl
      · simp only
        rw [ih]

/-- C8: for both paginated fetches, a fetched page with zero items ends the
pagination regardless of the page number reached: the timeline loop issues
exactly one request per non-empty leading page plus the final empty-page
request, and for both loops everything after the first empty page is never
requested (the outcome does not depend on it). -/
theorem c8_empty_page_terminates_pagination
    (tok : Option String) (timelines : Nat → List (List TimelineEvent))
    (now hrs : Int) (d : PrDict) (b : Bool)
    (pages ps qs qs' : List (List TimelineEvent))
    (rs ts ts' : List (List PrDict)) (m : ReviewerDict) :
    (timelineLoop pages d b).2.2 =
        (pages.takeWhile fun p => !p.isEmpty).length + 1 ∧
      timelineLoop (ps ++ [] :: qs) d b = timelineLoop (ps ++ [] :: qs') d b ∧
      prLoop tok timelines now hrs (rs ++ [] :: ts) m =
        prLoop tok timelines now hrs (rs ++ [] :: ts') m :=
  ⟨timelineLoop_requests pages d b, timelineLoop_stops_at_empty qs qs' ps d b,
    prLoop_stops_at_empty tok timelines now hrs ts ts' rs m⟩

/-! ### Helper lemmas for the timestamp-format refinement -/

lemma digitChar_lt_iff (x y : Nat) (hx : x < 10) (hy : y < 10) :
    digitChar x < digitChar y ↔ x < y := by
  interval_cases x <;> interval_cases y <;> decide

lemma strLt_cons_eq (a b : Char) (s t : List Char) :
    strLt (a :: s) (b :: t) =
      if a < b then true else if b < a then false else strLt s t := rfl

lemma strLt_cons_same (c : Char) (s t : List Char) :
    strLt (c :: s) (c :: t) = strLt s t := by
  rw [strLt_cons_eq, if_neg (lt_irrefl c), if_neg (lt_irrefl c)]

lemma nat_lt_iff_div_mod (P : Nat) (hP : 0 < P) (a b : Nat) :
    a < b ↔ (a / P < b / P ∨ (a / P = b / P ∧ a % P < b % P)) := by
  constructor
  · intro hab
    rcases Nat.lt_or_ge (a / P) (b / P) with h | h
    · exact Or.inl h
    · right
      have heq : a / P = b / P :=
        Nat.le_antisymm (Nat.div_le_div_right (Nat.le_of_lt hab)) h
      refine ⟨heq, ?_⟩
      have h1 := Nat.div_add_mod a P
      have h2 := Nat.div_add_mod b P
      rw [heq] at h1
      generalize P * (b / P) = c at h1 h2
      omega
  · intro h
    rcases h with h | ⟨heq, hmod⟩
    · have h1 := Nat.div_add_mod a P
      have h2 := Nat.div_add_mod b P
      have hma : a % P < P := Nat.mod_lt a hP
      have hmul : P * (a / P) + P ≤ P * (b / P) := by
        have hs : a / P + 1 ≤ b / P := h
        calc P * (a / P) + P = P * (a / P + 1) := by rw [Nat.mul_succ]
        _ ≤ P * (b / P) := Nat.mul_le_mul_left P hs
      generalize P * (a / P) = ca at h1 hmul
      generalize P * (b / P) = cb at h2 hmul
      omega
    · have h1 := Nat.div_add_mod a P
      have h2 := Nat.div_add_mod b P
      rw [heq] at h1
      generalize P * (b / P) = c at h1 h2
      omega

lemma nat_eq_iff_div_mod (P : Nat) (a b : Nat) :
    a = b ↔ (a / P = b / P ∧ a % P = b % P) := by
  constructor
  · rintro rfl
    exact ⟨rfl, rfl⟩
  · rintro ⟨h1, h2⟩
    have ha := Nat.div_add_mod a P
    have hb := Nat.div_add_mod b P
    rw [h1, h2] at ha
    generalize P * (b / P) = c at ha hb
    omega

lemma strLt_padDigits_append (w : Nat) :
    ∀ (a b : Nat), a < 10 ^ w → b < 10 ^ w → ∀ (s t : List Char),
      strLt (padDigits w a ++ s) (padDigits w b ++ t) =
        if a < b then true else if b < a then false else strLt s t := by
  induction w with
  | zero =>
    intro a b ha hb s t
    have ha0 : a = 0 := Nat.lt_one_iff.mp (by simpa using ha)
    have hb0 : b = 0 := Nat.lt_one_iff.mp (by simpa using hb)
    subst ha0
    subst hb0
    simp [padDigits]
  | succ w ih =>
    intro a b ha hb s t
    have hP : 0 < 10 ^ w := pow_pos (by norm_num) w
    have hqa : a / 10 ^ w < 10 := by
      rw [Nat.div_lt_iff_lt_mul hP]
      calc a < 10 ^ (w + 1) := ha
      _ = 10 * 10 ^ w := by rw [pow_succ, Nat.mul_comm]
    have hqb : b / 10 ^ w < 10 := by
      rw [Nat.div_lt_iff_lt_mul hP]
      calc b < 10 ^ (w + 1) := hb
      _ = 10 * 10 ^ w := by rw [pow_succ, Nat.mul_comm]
    have hra : a % 10 ^ w < 10 ^ w := Nat.mod_lt a hP
    have hrb : b % 10 ^ w < 10 ^ w := Nat.mod_lt b hP
    rw [padDigits, padDigits, List.cons_append, List.cons_append, strLt_cons_eq]
    simp only [digitChar_lt_iff _ _ hqa hqb, digitChar_lt_iff _ _ hqb hqa]
    rw [ih (a % 10 ^ w) (b % 10 ^ w) hra hrb s t]
    rcases Nat.lt_trichotomy (a / 10 ^ w) (b / 10 ^ w) with hq | hq | hq
    · have hab : a < b := (nat_lt_iff_div_mod _ hP a b).mpr (Or.inl hq)
      rw [if_pos hq, if_pos hab]
    · have h1 : ¬ a / 10 ^ w < b / 10 ^ w := by rw [hq]; exact lt_irrefl _
      have h2 : ¬ b / 10 ^ w < a / 10 ^ w := by rw [hq]; exact lt_irrefl _
      rcases Nat.lt_trichotomy (a % 10 ^ w) (b % 10 ^ w) with hr | hr | hr
      · have hab : a < b := (nat_lt_iff_div_mod _ hP a b).mpr (Or.inr ⟨hq, hr⟩)
        rw [if_neg h1, if_neg h2, if_pos hr, if_pos hab]
      · have hab : a = b := (nat_eq_iff_div_mod _ a b).mpr ⟨hq, hr⟩
        have h3 : ¬ a % 10 ^ w < b % 10 ^ w := by rw [hr]; exact lt_irrefl _
        have h4 : ¬ b % 10 ^ w < a % 10 ^ w := by rw [hr]; exact lt_irrefl _
        have h5 : ¬ a < b := by rw [hab]; exact lt_irrefl _
        have h6 : ¬ b < a := by rw [hab]; exact lt_irrefl _
        rw [if_neg h1, if_neg h2, if_neg h3, if_neg h4, if_neg h5, if_neg h6]
      · have hba : b < a := (nat_lt_iff_div_mod _ hP b a).mpr (Or.inr ⟨hq.symm, hr⟩)
        rw [if_neg h1, if_neg h2, if_neg (Nat.lt_asymm hr), if_pos hr,
          if_neg (Nat.lt_asymm hba), if_pos hba]
    · have hba : b < a := (nat_lt_iff_div_mod _ hP b a).mpr (Or.inl hq)
      rw [if_neg (Nat.lt_asymm hq), if_pos hq, if_neg (Nat.lt_asymm hba), if_pos hba]

/-- C9: on instants rendered by the fixed `%Y-%m-%dT%H:%M:%SZ` format, the
lexicographic string comparison used by the stale-comment filter agrees
with the chronological (field-lexicographic, as Python compares parsed
`datetime` values) comparison of the underlying instants, so the
string-based filter is equivalent to a reference filter on parsed
datetimes. -/
theorem c9_string_order_matches_datetime_order (a b : Datetime)
    (ha : a.inFormatRange) (hb : b.inFormatRange) :
    strLt (formatDatetime a) (formatDatetime b) = dtLt a b := by
  obtain ⟨hay, ham, had, hah, hami, has⟩ := ha
  obtain ⟨hby, hbm, hbd, hbh, hbmi, hbs⟩ := hb
  have h4 : (10 : Nat) ^ 4 = 10000 := by norm_num
  have h2 : (10 : Nat) ^ 2 = 100 := by norm_num
  rw [formatDatetime, formatDatetime]
  rw [strLt_padDigits_append 4 a.year b.year (by rw [h4]; exact hay)
    (by rw [h4]; exact hby)]
  rw [strLt_cons_same]
  rw [strLt_padDigits_append 2 a.month b.month (by rw [h2]; exact ham)
    (by rw [h2]; exact hbm)]
  rw [strLt_cons_same]
  rw [strLt_padDigits_append 2 a.day b.day (by rw [h2]; exact had)
    (by rw [h2]; exact hbd)]
  rw [strLt_cons_same]
  rw [strLt_padDigits_append 2 a.hour b.hour (by rw [h2]; exact hah)
    (by rw [h2]; exact hbh)]
  rw [strLt_cons_same]
  rw [strLt_padDigits_append 2 a.minute b.minute (by rw [h2]; exact hami)
    (by rw [h2]; exact hbmi)]
  rw [strLt_cons_same]
  rw [strLt_padDigits_append 2 a.second b.second (by rw [h2]; exact has)
    (by rw [h2]; exact hbs)]
  rw [dtLt]
  rfl

/-- Witness for C9: two in-range instants one second apart compare the same
way as strings and as parsed datetimes. -/
theorem c9_string_order_matches_datetime_order_witness :
    (Datetime.mk 2020 1 2 3 4 5).inFormatRange ∧
      strLt (formatDatetime (Datetime.mk 2020 1 2 3 4 5))
          (formatDatetime (Datetime.mk 2020 1 2 3 4 6)) =
        dtLt (Datetime.mk 2020 1 2 3 4 5) (Datetime.mk 2020 1 2 3 4 6) :=
  ⟨⟨by norm_num, by norm_num, by norm_num, by norm_num, by norm_num, by norm_num⟩,
    c9_string_order_matches_datetime_order (Datetime.mk 2020 1 2 3 4 5)
      (Datetime.mk 2020 1 2 3 4 6)
      ⟨by norm_num, by norm_num, by norm_num, by norm_num, by norm_num, by norm_num⟩
      ⟨by norm_num, by norm_num, by norm_num, by norm_num, by norm_num, by norm_num⟩⟩

end PendingReviewNotifier
